import Mathlib

/-!
Formal model of the SQL connector of `unstructured-ingest`
(`src/unstructured_ingest/v2/processes/connectors/sql/sql.py`).

The Python code is shallowly embedded: Python runtime values are modelled by
the inductive type `PyVal` (floats are modelled as exact rationals, so float
rounding and float formatting are outside the model), dictionaries are
modelled either as association lists or as functions `String → Option PyVal`,
dataframes as lists of rows or lists of columns, and fallible code returns
`Except`/`Option`.  External libraries used by the connector (`dateutil`,
`pandas`, `hashlib`, the DB driver) are modelled where their behaviour is
relevant: `dateutil.parser.parse` is abstracted as a function argument,
`hashlib.sha256` is implemented from the FIPS 180-4 algorithm, and the SQL
statements issued by the uploader are given a small operational semantics on
an explicit table state.
-/

/-- Model of a Python runtime value as it can appear in a staged element or a
dataframe cell.  Python floats are modelled as exact rationals; `datetime`
objects carry their POSIX timestamp (in seconds) as a rational. -/
inductive PyVal where
  | none : PyVal
  | bool (b : Bool) : PyVal
  | int (n : Int) : PyVal
  | float (q : ℚ) : PyVal
  | str (s : String) : PyVal
  | datetime (t : ℚ) : PyVal
  | list (xs : List PyVal) : PyVal
  | dict (kvs : List (String × PyVal)) : PyVal

/-- Model of `json.dumps` with its default separators, as called by
`SQLUploadStager.conform_dataframe`.  String escaping of control characters
and float formatting are not modelled (no claim depends on them). -/
def jsonDumps : PyVal → String
  | .none => "null"
  | .bool true => "true"
  | .bool false => "false"
  | .int n => toString n
  | .float q => toString q
  | .str s => "\x22" ++ s ++ "\x22"
  | .datetime t => toString t
  | .list xs => "[" ++ String.intercalate ", " (xs.attach.map (fun x => jsonDumps x.1)) ++ "]"
  | .dict kvs =>
      "\x7b" ++
        String.intercalate ", "
          (kvs.attach.map (fun kv => "\x22" ++ kv.1.1 ++ "\x22: " ++ jsonDumps kv.1.2)) ++
        "\x7d"
decreasing_by
  · have := List.sizeOf_lt_of_mem x.2
    simp only [PyVal.list.sizeOf_spec]
    omega
  · have h1 := List.sizeOf_lt_of_mem kv.2
    have h2 : sizeOf kv.1.2 < sizeOf kv.1 := by
      obtain ⟨a, b⟩ := kv.1
      simp only [Prod.mk.sizeOf_spec]
      omega
    simp only [PyVal.dict.sizeOf_spec]
    omega

/-- Model of Python `repr` on the values of `PyVal` (string quoting is
modelled without escaping; float formatting is not modelled). -/
def pyRepr : PyVal → String
  | .none => "None"
  | .bool true => "True"
  | .bool false => "False"
  | .int n => toString n
  | .float q => toString q
  | .str s => "\x27" ++ s ++ "\x27"
  | .datetime t => toString t
  | .list xs => "[" ++ String.intercalate ", " (xs.attach.map (fun x => pyRepr x.1)) ++ "]"
  | .dict kvs =>
      "\x7b" ++
        String.intercalate ", "
          (kvs.attach.map (fun kv => "\x27" ++ kv.1.1 ++ "\x27: " ++ pyRepr kv.1.2)) ++
        "\x7d"
decreasing_by
  · have := List.sizeOf_lt_of_mem x.2
    simp only [PyVal.list.sizeOf_spec]
    omega
  · have h1 := List.sizeOf_lt_of_mem kv.2
    have h2 : sizeOf kv.1.2 < sizeOf kv.1 := by
      obtain ⟨a, b⟩ := kv.1
      simp only [Prod.mk.sizeOf_spec]
      omega
    simp only [PyVal.dict.sizeOf_spec]
    omega

/-- Model of Python `str(x)`: identity on strings, `repr` on the other values
modelled here (this agrees with CPython for `None`, booleans, integers, lists
and dictionaries). -/
def pyStr : PyVal → String
  | .str s => s
  | v => pyRepr v

/-- The fixed allow-list `_COLUMNS` of supported destination columns
(`sql.py`, lines 40-80). -/
def _COLUMNS : List String :=
  ["id", "element_id", "text", "embeddings", "type", "system", "layout_width",
   "layout_height", "points", "url", "version", "date_created", "date_modified",
   "date_processed", "permissions_data", "record_locator", "category_depth",
   "parent_id", "attached_filename", "filetype", "last_modified", "file_directory",
   "filename", "languages", "page_number", "links", "page_name", "link_urls",
   "link_texts", "sent_from", "sent_to", "subject", "section", "header_footer_type",
   "emphasized_text_contents", "emphasized_text_tags", "text_as_html",
   "regex_metadata", "detection_class_prob"]

/-- The date columns `_DATE_COLUMNS` (`sql.py`, line 82). -/
def _DATE_COLUMNS : List String :=
  ["date_created", "date_modified", "date_processed", "last_modified"]

/-- Modelled from the spec: the record-linkage column label `RECORD_ID_LABEL`,
imported by `sql.py` from `unstructured_ingest.v2.constants`, a module that is
not part of the sources here.  The spec (§3, StagedElement) names the
record-linkage field `record_id`. -/
def RECORD_ID_LABEL : String := "record_id"

/-- Decimal digit value of a character, or `none`. -/
def decDigit (c : Char) : Option Nat :=
  if 48 ≤ c.toNat ∧ c.toNat ≤ 57 then some (c.toNat - 48) else none

/-- Value of a (nonempty, all-digit) character list read in base ten. -/
def decDigitsVal (cs : List Char) : Nat :=
  cs.foldl (fun acc c => acc * 10 + ((decDigit c).getD 0)) 0

/-- Model of Python `float(s)` on strings, restricted to plain decimal
numerals `[+-]digits[.digits]` (scientific notation, infinities and
whitespace trimming are outside the model; on those this model falls back to
`none`, i.e. to the behaviour of an unparseable numeral). -/
def pyFloatOfString (s : String) : Option ℚ :=
  let signed : ℚ × List Char :=
    match s.data with
    | '-' :: rest => (-1, rest)
    | '+' :: rest => (1, rest)
    | cs => (1, cs)
  let sign := signed.1
  let cs := signed.2
  let intPart := cs.takeWhile (fun c => (decDigit c).isSome)
  let rest := cs.dropWhile (fun c => (decDigit c).isSome)
  match rest with
  | [] =>
      if intPart.isEmpty then none
      else some (sign * (decDigitsVal intPart : ℚ))
  | '.' :: frac =>
      if frac.all (fun c => (decDigit c).isSome) ∧ ¬(intPart.isEmpty ∧ frac.isEmpty) then
        some (sign * ((decDigitsVal intPart : ℚ) +
          (decDigitsVal frac : ℚ) / (10 : ℚ) ^ frac.length))
      else none
  | _ => none

/-- Model of Python `isinstance(x, int)`: true for integers and booleans
(`bool` is a subclass of `int`). -/
def pyIsInstanceInt : PyVal → Bool
  | .int _ => true
  | .bool _ => true
  | _ => false

/-- Integer value of a `PyVal` seen as a Python `int` (booleans count as 0/1). -/
def pyIntValue : PyVal → Int
  | .int n => n
  | .bool true => 1
  | .bool false => 0
  | _ => 0

/-- Model of Python `float(x)`: exact on ints, bools and floats, decimal
parsing on strings, and `none` (a raised `TypeError`) on the other values. -/
def floatOfPyVal : PyVal → Option ℚ
  | .int n => some (n : ℚ)
  | .bool true => some 1
  | .bool false => some 0
  | .float q => some q
  | .str s => pyFloatOfString s
  | _ => none

/-- Smallest timestamp accepted by `datetime.fromtimestamp` (year 1). -/
def pyMinTimestamp : ℚ := -62135596800

/-- Largest timestamp accepted by `datetime.fromtimestamp` (year 9999). -/
def pyMaxTimestamp : ℚ := 253402300799

/-- Model of `datetime.fromtimestamp`: returns the instant (as a POSIX
timestamp in seconds) when it is inside the representable range of Python
dates, and `none` (a raised `OverflowError`/`ValueError`) otherwise. -/
def fromtimestamp (q : ℚ) : Option ℚ :=
  if pyMinTimestamp ≤ q ∧ q ≤ pyMaxTimestamp then some q else none

/-- The numeric-epoch path of `parse_date_string` (`sql.py`, lines 95-99):
`timestamp = float(v) / 1000 if isinstance(v, int) else float(v)` followed by
`datetime.fromtimestamp(timestamp)`; `none` models a raised exception
anywhere on this path. -/
def tryNumericTimestamp (v : PyVal) : Option ℚ :=
  if pyIsInstanceInt v then fromtimestamp ((pyIntValue v : ℚ) / 1000)
  else (floatOfPyVal v).bind fromtimestamp

/-- Shallow embedding of `parse_date_string` (`sql.py`, lines 94-100).  The
numeric-epoch interpretation is attempted first; on its failure (a caught and
logged exception) the value is handed to `dateutil.parser.parse`, which is an
external library modelled by the function argument `du` (`du v = none` models
a raised parsing exception).  An `Except.error` result models an exception
propagating uncaught to the caller. -/
def parse_date_string (du : PyVal → Option ℚ) (v : PyVal) : Except String ℚ :=
  match tryNumericTimestamp v with
  | some t => Except.ok t
  | none =>
    match du v with
    | some t => Except.ok t
    | none => Except.error "unparseable date value"

/-- Calendar date (as a count of whole days) of an instant rendered in a
fixed timezone with offset `tz` seconds: the date shown by
`datetime.fromtimestamp` depends on the local timezone, so it is modelled
with the offset explicit. -/
def calendarDate (tz : Int) (t : ℚ) : Int := ((t + tz) / 86400).floor

/-- Code-point-wise lexicographic comparison of character lists, the order
Python uses to compare strings (and hence the order of `sorted` on the
identifier strings fetched by `SQLIndexer._get_doc_ids`). -/
def charListLe : List Char → List Char → Bool
  | [], _ => true
  | _ :: _, [] => false
  | a :: as, b :: bs =>
    if a.toNat < b.toNat then true
    else if b.toNat < a.toNat then false
    else charListLe as bs

/-- Python string comparison `a <= b` as a relation on `String`. -/
def strLe (a b : String) : Prop := charListLe a.data b.data = true

instance : DecidableRel strLe := fun _ _ => instDecidableEqBool _ _

/-- The `sorted(...)` call of `SQLIndexer._get_doc_ids` (`sql.py`, line 137):
the one scalar fetched per table row, sorted lexicographically. -/
def sortIds (results : List String) : List String := List.insertionSort strLe results

/-- Contiguous slices of size `B`: slice `i` is `l[i*B : (i+1)*B]`, and there
are `(length + B - 1) / B` of them, exactly as in `SQLIndexer.run`
(`sql.py`, lines 150-161). -/
def sliceChunks (B : Nat) (l : List α) : List (List α) :=
  (List.range ((l.length + B - 1) / B)).map (fun i => (l.drop (i * B)).take B)

/-- Recursive characterization of `sliceChunks`, with explicit fuel (used
only in proofs; `sliceChunks` is the definition matching the source). -/
def chunkRecAux (B : Nat) : Nat → List α → List (List α)
  | 0, _ => []
  | _, [] => []
  | fuel + 1, a :: as => ((a :: as).take B) :: chunkRecAux B fuel ((a :: as).drop B)

/-- The id-batch slicing (`id_batches` local of `SQLIndexer.run`, lines
150-161), before each slice is turned into a `frozenset`. -/
def id_batches (batch_size : Nat) (ids : List String) : List (List String) :=
  sliceChunks batch_size ids

/-- Model of one `SqlBatchFileData` descriptor yielded by `SQLIndexer.run`:
the originating table and id column, the `frozenset` of identifiers of the
slice, and the `batch_items` built as `[BatchItem(identifier=str(b)) for b in
batch]` (a traversal of the frozenset, so a multiset of identifiers). -/
structure SqlBatchFileData where
  table_name : String
  id_column : String
  identifiers : Finset String
  batch_items : Multiset String
  deriving DecidableEq

/-- Shallow embedding of `SQLIndexer.run` (`sql.py`, lines 148-173) as a
function of the sequence of identifier-query results: sort the fetched
identifiers, slice them into batches of `batch_size`, and emit one descriptor
per slice.  (The `date_processed=str(time())` metadata field is wall-clock
bookkeeping and is not part of the model.) -/
def SQLIndexer_run (table_name id_column : String) (batch_size : Nat)
    (results : List String) : List SqlBatchFileData :=
  let ids := sortIds results
  (id_batches batch_size ids).map (fun batch =>
    { table_name := table_name
      id_column := id_column
      identifiers := batch.toFinset
      batch_items := batch.toFinset.val.map (fun b => b) })

/-- Two to the thirty-second power, the word modulus of SHA-256. -/
def w32 : Nat := 4294967296

/-- Right rotation of a 32-bit word by `n` bits. -/
def rotr32 (n x : Nat) : Nat := ((x >>> n) ||| (x <<< (32 - n))) % w32

/-- FIPS 180-4 Sigma0. -/
def shaBigSigma0 (x : Nat) : Nat := rotr32 2 x ^^^ rotr32 13 x ^^^ rotr32 22 x

/-- FIPS 180-4 Sigma1. -/
def shaBigSigma1 (x : Nat) : Nat := rotr32 6 x ^^^ rotr32 11 x ^^^ rotr32 25 x

/-- FIPS 180-4 sigma0. -/
def shaSmallSigma0 (x : Nat) : Nat := rotr32 7 x ^^^ rotr32 18 x ^^^ (x >>> 3)

/-- FIPS 180-4 sigma1. -/
def shaSmallSigma1 (x : Nat) : Nat := rotr32 17 x ^^^ rotr32 19 x ^^^ (x >>> 10)

/-- The 64 SHA-256 round constants (FIPS 180-4, section 4.2.2, written here
in decimal). -/
def sha256K : List Nat :=
  [1116352408, 1899447441, 3049323471, 3921009573,
   961987163, 1508970993, 2453635748, 2870763221,
   3624381080, 310598401, 607225278, 1426881987,
   1925078388, 2162078206, 2614888103, 3248222580,
   3835390401, 4022224774, 264347078, 604807628,
   770255983, 1249150122, 1555081692, 1996064986,
   2554220882, 2821834349, 2952996808, 3210313671,
   3336571891, 3584528711, 113926993, 338241895,
   666307205, 773529912, 1294757372, 1396182291,
   1695183700, 1986661051, 2177026350, 2456956037,
   2730485921, 2820302411, 3259730800, 3345764771,
   3516065817, 3600352804, 4094571909, 275423344,
   430227734, 506948616, 659060556, 883997877,
   958139571, 1322822218, 1537002063, 1747873779,
   1955562222, 2024104815, 2227730452, 2361852424,
   2428436474, 2756734187, 3204031479, 3329325298]

/-- The eight 32-bit working variables of SHA-256. -/
structure Sha256State where
  a : Nat
  b : Nat
  c : Nat
  d : Nat
  e : Nat
  f : Nat
  g : Nat
  h : Nat

/-- The SHA-256 initial hash value. -/
def sha256H0 : Sha256State :=
  ⟨1779033703, 3144134277, 1013904242, 2773480762,
   1359893119, 2600822924, 528734635, 1541459225⟩

/-- Expand a 16-word block into the 64-word SHA-256 message schedule. -/
def sha256Schedule (block : List Nat) : List Nat :=
  (List.range 48).foldl
    (fun ws _ =>
      ws ++ [(shaSmallSigma1 (ws.getD (ws.length - 2) 0) + ws.getD (ws.length - 7) 0 +
              shaSmallSigma0 (ws.getD (ws.length - 15) 0) + ws.getD (ws.length - 16) 0) % w32])
    block

/-- One SHA-256 round: `kw` is the pair of round constant and schedule word. -/
def sha256Round (st : Sha256State) (kw : Nat × Nat) : Sha256State :=
  let ch := (st.e &&& st.f) ^^^ ((4294967295 ^^^ st.e) &&& st.g)
  let maj := (st.a &&& st.b) ^^^ (st.a &&& st.c) ^^^ (st.b &&& st.c)
  let t1 := (st.h + shaBigSigma1 st.e + ch + kw.1 + kw.2) % w32
  let t2 := (shaBigSigma0 st.a + maj) % w32
  ⟨(t1 + t2) % w32, st.a, st.b, st.c, (st.d + t1) % w32, st.e, st.f, st.g⟩

/-- SHA-256 compression of one 16-word block into the running state. -/
def sha256Compress (st : Sha256State) (block : List Nat) : Sha256State :=
  let r := (sha256K.zip (sha256Schedule block)).foldl sha256Round st
  ⟨(st.a + r.a) % w32, (st.b + r.b) % w32, (st.c + r.c) % w32, (st.d + r.d) % w32,
   (st.e + r.e) % w32, (st.f + r.f) % w32, (st.g + r.g) % w32, (st.h + r.h) % w32⟩

/-- Big-endian byte expansion of `n` into `k` bytes. -/
def bytesBE (k n : Nat) : List Nat :=
  (List.range k).map (fun i => (n >>> (8 * (k - 1 - i))) % 256)

/-- SHA-256 padding of a byte message: `0x80`, zeros to 56 mod 64, and the
bit length in 8 big-endian bytes. -/
def sha256Pad (msg : List Nat) : List Nat :=
  msg ++ [128] ++ List.replicate ((120 - (msg.length + 1) % 64) % 64) 0 ++
    bytesBE 8 (8 * msg.length)

/-- Group a byte list into big-endian 32-bit words. -/
def wordsOfBytes : List Nat → List Nat
  | b0 :: b1 :: b2 :: b3 :: rest =>
      (((b0 * 256 + b1) * 256 + b2) * 256 + b3) :: wordsOfBytes rest
  | _ => []

/-- The SHA-256 state after absorbing a whole byte message. -/
def sha256Final (msg : List Nat) : Sha256State :=
  let ws := wordsOfBytes (sha256Pad msg)
  (chunkRecAux 16 ws.length ws).foldl sha256Compress sha256H0

/-- A lowercase hexadecimal digit. -/
def hexDigitChar (n : Nat) : Char :=
  if n < 10 then Char.ofNat (48 + n) else Char.ofNat (87 + n)

/-- Eight-character lowercase hex rendering of a 32-bit word. -/
def hexWord32 (x : Nat) : String :=
  String.mk ((List.range 8).map (fun i => hexDigitChar ((x >>> (4 * (7 - i))) % 16)))

/-- Model of `hashlib.sha256(bytes).hexdigest()`: the 64-character lowercase
hex digest of a byte message. -/
def sha256Hexdigest (msg : List Nat) : String :=
  let st := sha256Final msg
  hexWord32 st.a ++ hexWord32 st.b ++ hexWord32 st.c ++ hexWord32 st.d ++
    hexWord32 st.e ++ hexWord32 st.f ++ hexWord32 st.g ++ hexWord32 st.h

/-- UTF-8 encoding of one character (model of Python `str.encode`). -/
def utf8Bytes (c : Char) : List Nat :=
  let n := c.toNat
  if n < 128 then [n]
  else if n < 2048 then [192 ||| (n >>> 6), 128 ||| (n &&& 63)]
  else if n < 65536 then
    [224 ||| (n >>> 12), 128 ||| ((n >>> 6) &&& 63), 128 ||| (n &&& 63)]
  else
    [240 ||| (n >>> 18), 128 ||| ((n >>> 12) &&& 63),
     128 ||| ((n >>> 6) &&& 63), 128 ||| (n &&& 63)]

/-- UTF-8 bytes of a string (model of Python `s.encode()`). -/
def strBytes (s : String) : List Nat := (s.data.map utf8Bytes).flatten

/-- Model of the Python slice `s[:n]`. -/
def pySliceTo (s : String) (n : Nat) : String := String.mk (s.data.take n)

/-- The `fields_hash` of `SQLDownloader.get_identifier` (`sql.py`, lines
200-204): the first 8 hex characters of the SHA-256 digest of the
comma-joined requested field list. -/
def fields_hash (fields : List String) : String :=
  pySliceTo (sha256Hexdigest (strBytes (String.intercalate "," fields))) 8

/-- Shallow embedding of `SQLDownloader.get_identifier` (`sql.py`, lines
198-205).  `fields` is the configured field projection
(`download_config.fields`); Python truthiness of the list is nonemptiness. -/
def get_identifier (fields : List String) (table_name record_id : String) : String :=
  let f := table_name ++ "-" ++ record_id
  if fields.isEmpty then f else f ++ "-" ++ fields_hash fields

/-- View a `PyVal` as a mapping `String → Option PyVal` (non-mapping values
give the empty mapping; Python would raise on them when `.pop` or `.update`
is attempted, so on such inputs the model is only used where the claims
quantify over genuine mappings). -/
def pyValAsDictFun (v : PyVal) : String → Option PyVal :=
  fun k =>
    match v with
    | .dict kvs => List.lookup k kvs
    | _ => none

/-- Model of `d.pop(key, default)` on function-modelled dictionaries: the
remaining mapping. -/
def removeKey (d : String → Option PyVal) (k : String) : String → Option PyVal :=
  fun x => if x = k then none else d x

/-- Model of `d.update(e)` on function-modelled dictionaries: keys of `e`
win. -/
def overrideDict (d e : String → Option PyVal) : String → Option PyVal :=
  fun x =>
    match e x with
    | some v => some v
    | none => d x

/-- Shallow embedding of `SQLUploadStager.conform_dict` (`sql.py`, lines
246-261).  Element dictionaries are modelled as functions
`String → Option PyVal`.  `get_enhanced_element_id` is imported from
`unstructured_ingest.v2.utils`, which is not part of the sources here; per
the spec (§4.1, Identity Resolver) it is a pure function of the element
mapping and the file identity, abstracted here as the argument `gid`. -/
def conform_dict (gid : (String → Option PyVal) → String → String)
    (element_dict : String → Option PyVal) (file_identifier : String) :
    String → Option PyVal :=
  let metadata0 := pyValAsDictFun ((element_dict "metadata").getD (.dict []))
  let data0 := removeKey element_dict "metadata"
  let data_source := pyValAsDictFun ((metadata0 "data_source").getD (.dict []))
  let coordinates := pyValAsDictFun ((metadata0 "coordinates").getD (.dict []))
  let metadata := removeKey (removeKey metadata0 "data_source") "coordinates"
  let data1 := overrideDict (overrideDict (overrideDict data0 metadata) data_source) coordinates
  let data2 := fun k =>
    if k = "id" then some (PyVal.str (gid data1 file_identifier)) else data1 k
  fun k =>
    if k = RECORD_ID_LABEL then some (PyVal.str file_identifier)
    else if k ∈ _COLUMNS then data2 k
    else none

/-- One pandas column-assignment loop of `conform_dataframe`: for every
column of `df` whose name is in `targets`, apply `f` to each cell
(`df[column] = df[column].apply(f)`); dataframes are modelled column-major as
lists of (name, cells). -/
def applyToColumns (targets : List String) (f : PyVal → PyVal)
    (df : List (String × List PyVal)) : List (String × List PyVal) :=
  df.map (fun col => if col.1 ∈ targets then (col.1, col.2.map f) else col)

/-- Like `applyToColumns` for a fallible cell transform: the first raised
exception aborts the traversal (pandas `apply` propagates it). -/
def applyToColumnsE (targets : List String) (f : PyVal → Except String PyVal)
    (df : List (String × List PyVal)) : Except String (List (String × List PyVal)) :=
  df.mapM (fun col =>
    if col.1 ∈ targets then do
      let cells ← col.2.mapM f
      pure (col.1, cells)
    else pure col)

/-- The cell transform of the structured-column loop (`sql.py`, lines
266-272): `json.dumps(x) if isinstance(x, (list, dict)) else None`. -/
def jsonNormalizeCell (v : PyVal) : PyVal :=
  match v with
  | .list _ => .str (jsonDumps v)
  | .dict _ => .str (jsonDumps v)
  | _ => .none

/-- The cell transform of the date-column loop: `parse_date_string` wrapped
into a `datetime` cell; an error models the exception propagating out of
`apply`. -/
def parseDateCell (du : PyVal → Option ℚ) (v : PyVal) : Except String PyVal :=
  (parse_date_string du v).map PyVal.datetime

/-- The structured columns of the second loop of `conform_dataframe`. -/
def structuredColumns : List String :=
  ["permissions_data", "record_locator", "points", "links"]

/-- The stringified columns of the third loop of `conform_dataframe`. -/
def stringifiedColumns : List String :=
  ["version", "page_number", "regex_metadata"]

/-- Shallow embedding of `SQLUploadStager.conform_dataframe` (`sql.py`, lines
263-278): the three column-family loops in source order — date columns
through `parse_date_string`, structured columns through the JSON transform,
and stringified columns through `str`. -/
def conform_dataframe (du : PyVal → Option ℚ) (df : List (String × List PyVal)) :
    Except String (List (String × List PyVal)) := do
  let df1 ← applyToColumnsE _DATE_COLUMNS (parseDateCell du) df
  let df2 := applyToColumns structuredColumns jsonNormalizeCell df1
  let df3 := applyToColumns stringifiedColumns (fun v => .str (pyStr v)) df2
  pure df3

/-- A dataframe (or table) row, modelled as an association list from column
name to cell value. -/
abbrev Row : Type := List (String × PyVal)

/-- The live destination table: its column names and its rows. -/
structure SqlTable where
  cols : List String
  rows : List Row

/-- A SQL statement issued by the uploader: the parameterized
`DELETE FROM {table} WHERE {key} = ?` of `delete_by_record_id`, or one
`executemany` of the parameterized insert statement with the bound value
tuples. -/
inductive SqlStmt where
  | deleteWhere (table_name key : String) (param : PyVal)
  | insertMany (table_name : String) (columns : List String) (values : List (List PyVal))

/-- SQL scalar equality used by the `WHERE {key} = ?` comparison: NULL
compares false against everything, scalars compare by value, and collection
values (which do not occur as SQL cells) compare false. -/
def scalarEqB : PyVal → PyVal → Bool
  | .bool a, .bool b => a == b
  | .int a, .int b => a == b
  | .float a, .float b => a == b
  | .str a, .str b => a == b
  | .datetime a, .datetime b => a == b
  | _, _ => false

/-- Whether a table row satisfies `{key} = {v}` (a row without the column, or
with NULL in it, does not match). -/
def rowMatches (key : String) (v : PyVal) (r : Row) : Bool :=
  match List.lookup key r with
  | some w => scalarEqB w v
  | none => false

/-- Operational semantics of one uploader statement on the table state:
delete removes exactly the matching rows, insert appends the bound tuples
zipped with the statement column list. -/
def executeStmt (t : SqlTable) (s : SqlStmt) : SqlTable :=
  match s with
  | .deleteWhere _ key v => { t with rows := t.rows.filter (fun r => !(rowMatches key v r)) }
  | .insertMany _ cols vals => { t with rows := t.rows ++ vals.map (fun tup => cols.zip tup) }

/-- Execute a statement list in order. -/
def applyStmts (t : SqlTable) (ss : List SqlStmt) : SqlTable := ss.foldl executeStmt t

/-- Shallow embedding of `SQLUploader.get_table_columns` (`sql.py`, lines
403-406): the column descriptors of the live table, fetched fresh. -/
def get_table_columns (t : SqlTable) : List String := t.cols

/-- Shallow embedding of `SQLUploader.can_delete` (`sql.py`, lines 408-409). -/
def can_delete (t : SqlTable) (record_id_key : String) : Bool :=
  (get_table_columns t).contains record_id_key

/-- Shallow embedding of `SQLUploader.delete_by_record_id` (`sql.py`, lines
411-421): the single parameterized DELETE statement it executes. -/
def delete_by_record_id (table_name record_id_key file_identifier : String) : SqlStmt :=
  .deleteWhere table_name record_id_key (.str file_identifier)

/-- The column list of a row-major dataframe (for dataframes with uniform
rows, pandas derives it from the keys of the first row). -/
def dfColumns (df : List Row) : List String := (df.headD []).map Prod.fst

/-- Shallow embedding of `SQLUploader._fit_to_schema` (`sql.py`, lines
344-364), faithful to the source including its two defects: the `columns`
parameter is immediately shadowed by `columns = set(df.columns)`, so
`schema_fields = set(columns)` reads the shadowed name and both difference
sets are always empty; and the function builds its result, returns `None`,
and the caller ignores it.  The shadowing is reproduced literally by the
first `let`. -/
def _fit_to_schema (df : List Row) (columns : List String) : List Row :=
  let columns := dfColumns df
  let schema_fields := columns
  let columns_to_drop := columns.filter (fun c => !(schema_fields.contains c))
  let missing_columns := schema_fields.filter (fun c => !(columns.contains c))
  let df2 := df.map (fun r => r.filter (fun kv => !(columns_to_drop.contains kv.1)))
  df2.map (fun r => r ++ missing_columns.map (fun c => (c, PyVal.none)))

/-- One `(column_name, value)` step of `SQLUploader.prepare_data` (`sql.py`,
lines 333-340): values of date columns other than `None` go through
`parse_date_string` (an error models the exception propagating), all other
values pass through. -/
def prepare_cell (du : PyVal → Option ℚ) (cv : String × PyVal) : Except String PyVal :=
  if cv.1 ∈ _DATE_COLUMNS then
    match cv.2 with
    | .none => pure PyVal.none
    | v => (parse_date_string du v).map PyVal.datetime
  else pure cv.2

/-- The per-row loop of `prepare_data`: `zip(columns, row)` processed cell by
cell. -/
def prepare_row (du : PyVal → Option ℚ) (columns : List String) (row : List PyVal) :
    Except String (List PyVal) :=
  (columns.zip row).mapM (prepare_cell du)

/-- Shallow embedding of `SQLUploader.prepare_data` (`sql.py`, lines
327-342). -/
def prepare_data (du : PyVal → Option ℚ) (columns : List String)
    (data : List (List PyVal)) : Except String (List (List PyVal)) :=
  data.mapM (prepare_row du columns)

/-- Modelled from the spec: `split_dataframe` is imported from
`unstructured_ingest.utils.data_prep`, which is not part of the sources here.
Per the spec (§4.6, Insert) the uploader batches "the fitted, normalized rows
into chunks of at most `batch_size`" by row position; modelled as the same
contiguous slicing as the indexer uses. -/
def split_dataframe (chunk_size : Nat) (df : List Row) : List (List Row) :=
  sliceChunks chunk_size df

/-- The value tuple of one row as bound by `executemany`
(`rows.itertuples(index=False)`), for rows of a dataframe with column list
`columns`. -/
def rowValues (columns : List String) (r : Row) : List PyVal :=
  columns.map (fun c => (List.lookup c r).getD PyVal.none)

/-- The insert statements of the batch loop of `upload_dataframe` (`sql.py`,
lines 390-401): one `executemany` per chunk, with the chunk rows prepared by
`prepare_data`. -/
def insertStmtsForBatches (du : PyVal → Option ℚ) (table_name : String)
    (columns : List String) (batches : List (List Row)) :
    Except String (List SqlStmt) :=
  batches.mapM (fun rows => do
    let values ← prepare_data du columns (rows.map (rowValues columns))
    pure (SqlStmt.insertMany table_name columns values))

/-- The rows a statement adds to the table (delete statements add none). -/
def stmtRows : SqlStmt → List Row
  | .deleteWhere _ _ _ => []
  | .insertMany _ cols vals => vals.map (fun tup => cols.zip tup)

/-- All rows added by a statement list, in execution order. -/
def insertedRows (ss : List SqlStmt) : List Row := (ss.map stmtRows).flatten

/-- Whether a statement is an insert. -/
def isInsertStmt : SqlStmt → Bool
  | .insertMany _ _ _ => true
  | _ => false

/-- Whether a statement is a delete. -/
def isDeleteStmt : SqlStmt → Bool
  | .deleteWhere _ _ _ => true
  | _ => false

/-- Shallow embedding of `SQLUploader.upload_dataframe` (`sql.py`, lines
366-401), returning the list of executed statements in order and the
resulting table state.  The `df.replace(np.nan: None)` step is the identity
here because floats are modelled as exact rationals; the result of
`_fit_to_schema` is bound and discarded, exactly as in the source (the
Python function returns `None` and the caller ignores it, so the dataframe
reaching the insert is the unfitted one).  A date-parsing failure aborts the
call with an error (the model does not track the partially executed trace of
a failing call; the claims concern successful uploads). -/
def upload_dataframe (du : PyVal → Option ℚ) (batch_size : Nat)
    (table_name record_id_key : String) (t : SqlTable) (df : List Row)
    (file_identifier : String) : Except String (List SqlStmt × SqlTable) := do
  let deleteStmts :=
    if can_delete t record_id_key then
      [delete_by_record_id table_name record_id_key file_identifier]
    else []
  let _fitted := _fit_to_schema df (get_table_columns t)
  let columns := dfColumns df
  let inserts ← insertStmtsForBatches du table_name columns (split_dataframe batch_size df)
  let trace := deleteStmts ++ inserts
  pure (trace, applyStmts t trace)

/-! ## General lemmas about the model -/

theorem charToNat_injective {a b : Char} (h : a.toNat = b.toNat) : a = b := by
  apply Char.eq_of_val_eq
  apply UInt32.eq_of_toBitVec_eq
  apply BitVec.eq_of_toNat_eq
  exact h

theorem stringData_injective {a b : String} (h : a.data = b.data) : a = b := by
  cases a; cases b; simp_all

theorem charListLe_total : ∀ as bs : List Char, charListLe as bs = true ∨ charListLe bs as = true
  | [], _ => Or.inl rfl
  | _ :: _, [] => Or.inr rfl
  | a :: as, b :: bs => by
    rcases Nat.lt_trichotomy a.toNat b.toNat with h | h | h
    · left; simp [charListLe, h]
    · rcases charListLe_total as bs with ih | ih
      · left; simp [charListLe, h, ih]
      · right; simp [charListLe, h.symm, ih]
    · right; simp [charListLe, h]

theorem charListLe_trans :
    ∀ as bs cs : List Char,
      charListLe as bs = true → charListLe bs cs = true → charListLe as cs = true
  | [], _, _, _, _ => rfl
  | _ :: _, [], _, h1, _ => by simp [charListLe] at h1
  | _ :: _, _ :: _, [], _, h2 => by simp [charListLe] at h2
  | a :: as, b :: bs, c :: cs, h1, h2 => by
    simp only [charListLe] at h1 h2 ⊢
    by_cases hab : a.toNat < b.toNat
    · by_cases hbc : b.toNat < c.toNat
      · rw [if_pos (Nat.lt_trans hab hbc)]
      · rw [if_neg hbc] at h2
        by_cases hcb : c.toNat < b.toNat
        · rw [if_pos hcb] at h2
          exact absurd h2 (by simp)
        · rw [if_pos (show a.toNat < c.toNat by omega)]
    · rw [if_neg hab] at h1
      by_cases hba : b.toNat < a.toNat
      · rw [if_pos hba] at h1
        exact absurd h1 (by simp)
      · rw [if_neg hba] at h1
        by_cases hbc : b.toNat < c.toNat
        · rw [if_pos (show a.toNat < c.toNat by omega)]
        · rw [if_neg hbc] at h2
          by_cases hcb : c.toNat < b.toNat
          · rw [if_pos hcb] at h2
            exact absurd h2 (by simp)
          · rw [if_neg hcb] at h2
            rw [if_neg (show ¬a.toNat < c.toNat by omega),
              if_neg (show ¬c.toNat < a.toNat by omega)]
            exact charListLe_trans as bs cs h1 h2

theorem charListLe_antisymm :
    ∀ as bs : List Char, charListLe as bs = true → charListLe bs as = true → as = bs
  | [], [], _, _ => rfl
  | [], _ :: _, _, h2 => by simp [charListLe] at h2
  | _ :: _, [], h1, _ => by simp [charListLe] at h1
  | a :: as, b :: bs, h1, h2 => by
    simp only [charListLe] at h1 h2
    by_cases hab : a.toNat < b.toNat
    · rw [if_neg (show ¬b.toNat < a.toNat by omega), if_pos hab] at h2
      exact absurd h2 (by simp)
    · rw [if_neg hab] at h1
      by_cases hba : b.toNat < a.toNat
      · rw [if_pos hba] at h1
        exact absurd h1 (by simp)
      · rw [if_neg hba] at h1
        rw [if_neg hba, if_neg hab] at h2
        have hc : a = b := charToNat_injective (by omega)
        rw [hc, charListLe_antisymm as bs h1 h2]

instance : IsTotal String strLe := ⟨fun a b => charListLe_total a.data b.data⟩

instance : IsTrans String strLe :=
  ⟨fun a b c h1 h2 => charListLe_trans a.data b.data c.data h1 h2⟩

instance : IsAntisymm String strLe :=
  ⟨fun a b h1 h2 => stringData_injective (charListLe_antisymm a.data b.data h1 h2)⟩

/-! ## Claim C3: the schema fitter -/

/-- C3 (code bug): the claim states that `_fit_to_schema` drops exactly the
batch columns absent from the live columns and adds the live columns absent
from the batch filled with nulls, so that afterwards the batch column set
equals the live column set.  The code does neither: because the `columns`
parameter is shadowed by `set(df.columns)`, both difference sets are always
empty, and the rebuilt dataframe is returned as `None` and ignored by the
caller, so `_fit_to_schema` is a no-op on every input.  In particular, for a
batch with columns `[text, extra]` against live columns
`[text, record_id]`, the extra column survives and the missing `record_id`
column is not added. -/
theorem fit_to_schema_is_noop :
    (∀ (df : List Row) (columns : List String), _fit_to_schema df columns = df)
    ∧ _fit_to_schema [[("text", PyVal.str "hello"), ("extra", PyVal.int 1)]]
        ["text", "record_id"]
      = [[("text", PyVal.str "hello"), ("extra", PyVal.int 1)]]
    ∧ "extra" ∈ dfColumns [[("text", PyVal.str "hello"), ("extra", PyVal.int 1)]]
    ∧ "extra" ∉ ["text", "record_id"]
    ∧ "record_id" ∉ dfColumns [[("text", PyVal.str "hello"), ("extra", PyVal.int 1)]] := by
  have hnoop : ∀ (df : List Row) (columns : List String), _fit_to_schema df columns = df := by
    intro df columns
    unfold _fit_to_schema
    have hdrop : (dfColumns df).filter (fun c => !((dfColumns df).contains c)) = [] := by
      rw [List.filter_eq_nil_iff]
      intro a ha
      simp [List.elem_iff, ha]
    simp only [hdrop]
    have h1 : ∀ r : Row, r.filter (fun kv => !(([] : List String).contains kv.1)) = r := by
      intro r
      rw [List.filter_eq_self]
      intro a _
      simp
    simp only [h1, List.map_nil, List.append_nil, List.map_id']
  exact ⟨hnoop, hnoop _ _, by decide, by decide, by decide⟩

/-! ## Claim C9: the staged-element allow-list -/

/-- C9: for every raw element mapping and file identity, the staged element
produced by `conform_dict` contains only keys from the `_COLUMNS` allow-list
plus the record-linkage key `RECORD_ID_LABEL`; its record-linkage field
equals the identifier of the source file; and every key outside the
allow-list (other than the record-linkage key) is absent from the result. -/
theorem conform_dict_allowlist (gid : (String → Option PyVal) → String → String)
    (element_dict : String → Option PyVal) (file_identifier : String) :
    conform_dict gid element_dict file_identifier RECORD_ID_LABEL
        = some (PyVal.str file_identifier)
    ∧ (∀ k, (conform_dict gid element_dict file_identifier k).isSome →
        k ∈ _COLUMNS ∨ k = RECORD_ID_LABEL)
    ∧ (∀ k, k ∉ _COLUMNS → k ≠ RECORD_ID_LABEL →
        conform_dict gid element_dict file_identifier k = none) := by
  refine ⟨by simp [conform_dict], ?_, ?_⟩
  · intro k hk
    by_cases h1 : k = RECORD_ID_LABEL
    · right; exact h1
    · by_cases h2 : k ∈ _COLUMNS
      · left; exact h2
      · exfalso
        simp [conform_dict, h1, h2] at hk
  · intro k h2 h1
    simp [conform_dict, h1, h2]

/-- Witness for C9 at a concrete element mapping: the record-linkage field of
the staged element is the file identifier, and a key outside the allow-list
is dropped. -/
theorem conform_dict_allowlist_witness :
    conform_dict (fun _ _ => "E") (fun _ => none) "f1" RECORD_ID_LABEL
        = some (PyVal.str "f1")
    ∧ conform_dict (fun _ _ => "E") (fun _ => none) "f1" "bogus" = none :=
  ⟨(conform_dict_allowlist (fun _ _ => "E") (fun _ => none) "f1").1,
   (conform_dict_allowlist (fun _ _ => "E") (fun _ => none) "f1").2.2 "bogus"
     (by decide) (by decide)⟩

/-! ## Claim C8: error propagation of the date normalizer -/

/-- C8: `parse_date_string` raises if and only if both parsing paths fail:
when the numeric-epoch interpretation fails, the value is retried through
the general-purpose string parser without raising, and only when that path
also fails does an error propagate to the caller. -/
theorem parse_date_error_iff (du : PyVal → Option ℚ) (v : PyVal) :
    ((parse_date_string du v).isOk = false ↔ tryNumericTimestamp v = none ∧ du v = none)
    ∧ (∀ t, tryNumericTimestamp v = none → du v = some t →
        parse_date_string du v = Except.ok t)
    ∧ (tryNumericTimestamp v = none → du v = none →
        parse_date_string du v = Except.error "unparseable date value") := by
  refine ⟨?_, ?_, ?_⟩
  · unfold parse_date_string
    rcases h : tryNumericTimestamp v with _ | t
    · rcases h2 : du v with _ | u
      · simp [Except.isOk, Except.toBool]
      · simp [Except.isOk, Except.toBool]
    · simp [Except.isOk, Except.toBool]
  · intro t h1 h2
    unfold parse_date_string
    rw [h1, h2]
  · intro h1 h2
    unfold parse_date_string
    rw [h1, h2]

/-- Witness for C8: on a non-numeric string the numeric path fails and the
string path result is returned; when both paths fail the error propagates. -/
theorem parse_date_error_iff_witness :
    parse_date_string (fun _ => some 5) (PyVal.str "x") = Except.ok 5
    ∧ parse_date_string (fun _ => none) (PyVal.str "x")
        = Except.error "unparseable date value" :=
  ⟨(parse_date_error_iff (fun _ => some 5) (PyVal.str "x")).2.1 5 (by decide) rfl,
   (parse_date_error_iff (fun _ => none) (PyVal.str "x")).2.2 (by decide) rfl⟩

/-! ## Claim C4: epoch units of the date normalizer -/

/-- C4: an integral input to `parse_date_string` is divided by 1000 (epoch
milliseconds), while a non-integral (float) or numeric-string input is
interpreted directly as an epoch in seconds; consequently the seconds-string
`"1700000000"` and the integral milliseconds `1700000000000` parse to the
same instant, and hence to the same calendar date in every timezone. -/
theorem parse_date_epoch_units :
    (∀ (du : PyVal → Option ℚ) (n : Int),
      pyMinTimestamp ≤ (n : ℚ) / 1000 → (n : ℚ) / 1000 ≤ pyMaxTimestamp →
      parse_date_string du (PyVal.int n) = Except.ok ((n : ℚ) / 1000))
    ∧ (∀ (du : PyVal → Option ℚ) (q : ℚ),
      pyMinTimestamp ≤ q → q ≤ pyMaxTimestamp →
      parse_date_string du (PyVal.float q) = Except.ok q)
    ∧ (∀ (du : PyVal → Option ℚ) (s : String) (q : ℚ),
      pyFloatOfString s = some q →
      pyMinTimestamp ≤ q → q ≤ pyMaxTimestamp →
      parse_date_string du (PyVal.str s) = Except.ok q)
    ∧ (∀ (du : PyVal → Option ℚ) (tz : Int),
      parse_date_string du (PyVal.str "1700000000") = Except.ok 1700000000
      ∧ parse_date_string du (PyVal.int 1700000000000) = Except.ok 1700000000
      ∧ (parse_date_string du (PyVal.str "1700000000")).map (calendarDate tz)
          = (parse_date_string du (PyVal.int 1700000000000)).map (calendarDate tz)) := by
  have hint : ∀ (du : PyVal → Option ℚ) (n : Int),
      pyMinTimestamp ≤ (n : ℚ) / 1000 → (n : ℚ) / 1000 ≤ pyMaxTimestamp →
      parse_date_string du (PyVal.int n) = Except.ok ((n : ℚ) / 1000) := by
    intro du n h1 h2
    unfold parse_date_string tryNumericTimestamp
    simp [pyIsInstanceInt, pyIntValue, fromtimestamp, h1, h2]
  have hstr : ∀ (du : PyVal → Option ℚ) (s : String) (q : ℚ),
      pyFloatOfString s = some q →
      pyMinTimestamp ≤ q → q ≤ pyMaxTimestamp →
      parse_date_string du (PyVal.str s) = Except.ok q := by
    intro du s q hq h1 h2
    unfold parse_date_string tryNumericTimestamp
    simp [pyIsInstanceInt, floatOfPyVal, hq, fromtimestamp, h1, h2]
  have hval : pyFloatOfString "1700000000" = some 1700000000 := by
    have h0 : pyFloatOfString "1700000000"
        = some ((1 : ℚ) * ((decDigitsVal "1700000000".data : Nat) : ℚ)) := rfl
    have h1 : decDigitsVal "1700000000".data = 1700000000 := by decide
    rw [h0, h1]
    norm_num
  refine ⟨hint, ?_, hstr, ?_⟩
  · intro du q h1 h2
    unfold parse_date_string tryNumericTimestamp
    simp [pyIsInstanceInt, floatOfPyVal, fromtimestamp, h1, h2]
  · intro du tz
    have e1 : parse_date_string du (PyVal.str "1700000000") = Except.ok 1700000000 :=
      hstr du _ _ hval (by norm_num [pyMinTimestamp]) (by norm_num [pyMaxTimestamp])
    have e2 : parse_date_string du (PyVal.int 1700000000000) = Except.ok 1700000000 := by
      have := hint du 1700000000000 (by norm_num [pyMinTimestamp]) (by norm_num [pyMaxTimestamp])
      rw [this]
      norm_num
    exact ⟨e1, e2, by rw [e1, e2]⟩

/-- Witness for C4 at concrete inputs: the integral value `2000` is read as
2000 milliseconds, i.e. the instant 2 seconds after the epoch. -/
theorem parse_date_epoch_units_witness :
    parse_date_string (fun _ => none) (PyVal.int 2000) = Except.ok 2
    ∧ parse_date_string (fun _ => none) (PyVal.str "1700000000")
        = Except.ok 1700000000 := by
  constructor
  · have := (parse_date_epoch_units).1 (fun _ => none) 2000
      (by norm_num [pyMinTimestamp]) (by norm_num [pyMaxTimestamp])
    rw [this]
    norm_num
  · exact ((parse_date_epoch_units).2.2.2 (fun _ => none) 0).1

/-! ## Claim C5: downloader filename identifiers -/

theorem string_length_data (s : String) : s.length = s.data.length := rfl

theorem stringMk_data (cs : List Char) : (String.mk cs).data = cs := rfl

theorem stringAppend_left_cancel {a b c : String} (h : a ++ b = a ++ c) : b = c := by
  have hd : (a ++ b).data = (a ++ c).data := by rw [h]
  simp only [String.data_append, List.append_cancel_left_eq] at hd
  exact stringData_injective hd

theorem hexWord32_length (x : Nat) : (hexWord32 x).length = 8 := by
  rw [hexWord32, string_length_data, stringMk_data, List.length_map, List.length_range]

theorem sha256Hexdigest_length (msg : List Nat) : (sha256Hexdigest msg).length = 64 := by
  simp [sha256Hexdigest, String.length_append, hexWord32_length]

theorem fields_hash_length (fields : List String) : (fields_hash fields).length = 8 := by
  have h := sha256Hexdigest_length (strBytes (String.intercalate "," fields))
  rw [string_length_data] at h
  unfold fields_hash pySliceTo
  rw [string_length_data, stringMk_data, List.length_take, h]
  decide

/-- C5 counterexample: the claim that any two distinct requested field
subsets for the same table and row yield different filename identifiers is
false: the hash input is the comma-join of the field list, so the distinct
field lists `["a,b"]` and `["a", "b"]` have the same join, the same digest,
and hence the same filename identifier. -/
theorem get_identifier_distinct_fields_collision :
    (["a,b"] : List String) ≠ ["a", "b"]
    ∧ get_identifier ["a,b"] "t" "r" = get_identifier ["a", "b"] "t" "r" := by
  refine ⟨by decide, ?_⟩
  rfl

/-- C5 amended: the filename identifier is `table-record` without a field
projection and `table-record-hash8` with one, where `hash8` is the
8-character hex digest of the comma-joined field list; and two projections
for the same table and row yield different identifiers whenever their
comma-joined field lists have different truncated digests (distinctness of
the field lists alone does not suffice). -/
theorem get_identifier_spec :
    (∀ t r, get_identifier [] t r = t ++ "-" ++ r)
    ∧ (∀ t r fields, fields ≠ [] →
        get_identifier fields t r = t ++ "-" ++ r ++ "-" ++ fields_hash fields)
    ∧ (∀ fields, (fields_hash fields).length = 8)
    ∧ (∀ t r f1 f2, f1 ≠ [] → f2 ≠ [] → fields_hash f1 ≠ fields_hash f2 →
        get_identifier f1 t r ≠ get_identifier f2 t r) := by
  have hne : ∀ fields : List String, fields ≠ [] → fields.isEmpty = false := by
    intro fields hf
    cases fields
    · exact absurd rfl hf
    · rfl
  refine ⟨fun t r => rfl, ?_, fields_hash_length, ?_⟩
  · intro t r fields hf
    unfold get_identifier
    rw [hne fields hf]
    rfl
  · intro t r f1 f2 h1 h2 hh heq
    unfold get_identifier at heq
    rw [hne f1 h1, hne f2 h2] at heq
    simp only [Bool.false_eq_true, if_false] at heq
    exact hh (stringAppend_left_cancel heq)

/-- Witness for C5 at concrete inputs: with the projection `["a"]` the
identifier carries the 8-character digest, and the projections `["a"]` and
`["b"]` (different digests) give different identifiers. -/
theorem get_identifier_spec_witness :
    get_identifier ["a"] "t" "r" = "t" ++ "-" ++ "r" ++ "-" ++ fields_hash ["a"]
    ∧ get_identifier ["a"] "t" "r" ≠ get_identifier ["b"] "t" "r" :=
  ⟨get_identifier_spec.2.1 "t" "r" ["a"] (by decide),
   get_identifier_spec.2.2.2 "t" "r" ["a"] ["b"] (by decide) (by decide) (by decide)⟩

/-! ## Lemmas about fallible traversals -/

theorem exceptMapM_ok_getElem {α β : Type} (f : α → Except String β) :
    ∀ (l : List α) (out : List β), l.mapM f = Except.ok out →
      out.length = l.length ∧
      ∀ (i : Nat) (a : α), l[i]? = some a → ∃ b, out[i]? = some b ∧ f a = Except.ok b := by
  intro l
  induction l with
  | nil =>
    intro out h
    simp only [List.mapM_nil, pure, Except.pure, Except.ok.injEq] at h
    subst h
    refine ⟨rfl, ?_⟩
    intro i a ha
    simp at ha
  | cons x xs ih =>
    intro out h
    rw [List.mapM_cons] at h
    rcases hx : f x with e | b
    · rw [hx] at h
      simp [Bind.bind, Except.bind] at h
    · rw [hx] at h
      rcases hxs : xs.mapM f with e | bs
      · rw [hxs] at h
        simp [Bind.bind, Except.bind] at h
      · rw [hxs] at h
        simp only [Bind.bind, Except.bind, pure, Except.pure, Except.ok.injEq] at h
        subst h
        obtain ⟨hlen, hrel⟩ := ih bs hxs
        refine ⟨by simp [hlen], ?_⟩
        intro i a ha
        cases i with
        | zero =>
          simp only [List.getElem?_cons_zero, Option.some.injEq] at ha
          subst ha
          exact ⟨b, by simp, hx⟩
        | succ j =>
          simp only [List.getElem?_cons_succ] at ha ⊢
          exact hrel j a ha

theorem exceptMapM_ok_mem {α β : Type} (f : α → Except String β) :
    ∀ (l : List α) (out : List β), l.mapM f = Except.ok out →
      ∀ b ∈ out, ∃ a ∈ l, f a = Except.ok b := by
  intro l
  induction l with
  | nil =>
    intro out h
    simp only [List.mapM_nil, pure, Except.pure, Except.ok.injEq] at h
    subst h
    intro b hb
    simp at hb
  | cons x xs ih =>
    intro out h
    rw [List.mapM_cons] at h
    rcases hx : f x with e | b
    · rw [hx] at h
      simp [Bind.bind, Except.bind] at h
    · rw [hx] at h
      rcases hxs : xs.mapM f with e | bs
      · rw [hxs] at h
        simp [Bind.bind, Except.bind] at h
      · rw [hxs] at h
        simp only [Bind.bind, Except.bind, pure, Except.pure, Except.ok.injEq] at h
        subst h
        intro c hc
        rcases hc with _ | hc
        · exact ⟨x, by simp, hx⟩
        · obtain ⟨a, ha, hfa⟩ := ih bs hxs c (by assumption)
          exact ⟨a, by simp [ha], hfa⟩

/-! ## Lemmas about the stager column loops -/

theorem applyToColumns_getElem (targets : List String) (f : PyVal → PyVal)
    (df : List (String × List PyVal)) (i : Nat) :
    (applyToColumns targets f df)[i]?
      = (df[i]?).map (fun col => if col.1 ∈ targets then (col.1, col.2.map f) else col) := by
  simp [applyToColumns, List.getElem?_map]

theorem applyToColumnsE_ok_notin (targets : List String) (f : PyVal → Except String PyVal)
    (df out : List (String × List PyVal)) (h : applyToColumnsE targets f df = Except.ok out)
    (i : Nat) (c : String) (cells : List PyVal) (hi : df[i]? = some (c, cells))
    (hc : c ∉ targets) : out[i]? = some (c, cells) := by
  obtain ⟨_, hrel⟩ := exceptMapM_ok_getElem _ df out h
  obtain ⟨b, hb, hfb⟩ := hrel i (c, cells) hi
  rw [if_neg hc] at hfb
  simp only [pure, Except.pure, Except.ok.injEq] at hfb
  rw [hb, hfb]

theorem structured_cols_families :
    ∀ c ∈ structuredColumns, c ∉ _DATE_COLUMNS ∧ c ∉ stringifiedColumns := by decide

theorem stringified_cols_families :
    ∀ c ∈ stringifiedColumns, c ∉ _DATE_COLUMNS ∧ c ∉ structuredColumns := by decide

theorem conform_dataframe_ok_shape (du : PyVal → Option ℚ)
    (df out : List (String × List PyVal)) (h : conform_dataframe du df = Except.ok out) :
    ∃ df1, applyToColumnsE _DATE_COLUMNS (parseDateCell du) df = Except.ok df1
      ∧ out = applyToColumns stringifiedColumns (fun v => .str (pyStr v))
          (applyToColumns structuredColumns jsonNormalizeCell df1) := by
  unfold conform_dataframe at h
  rcases hd : applyToColumnsE _DATE_COLUMNS (parseDateCell du) df with e | df1
  · rw [hd] at h
    simp [Bind.bind, Except.bind] at h
  · rw [hd] at h
    simp only [Bind.bind, Except.bind, pure, Except.pure, Except.ok.injEq] at h
    exact ⟨df1, rfl, h.symm⟩

/-! ## Claim C7: structured-column normalization -/

/-- C7: for every staged dataframe with a structured column
(`permissions_data`, `record_locator`, `points`, `links`), a successful
`conform_dataframe` maps each cell of that column through the JSON
transform — a JSON string for list and mapping values, `None` for every
other value — and leaves the cells of columns outside the fixed
column-to-transform table untouched. -/
theorem conform_dataframe_structured (du : PyVal → Option ℚ)
    (df out : List (String × List PyVal)) (h : conform_dataframe du df = Except.ok out)
    (i : Nat) (c : String) (cells : List PyVal) (hdf : df[i]? = some (c, cells)) :
    (c ∈ structuredColumns → out[i]? = some (c, cells.map jsonNormalizeCell))
    ∧ (c ∉ _DATE_COLUMNS → c ∉ structuredColumns → c ∉ stringifiedColumns →
        out[i]? = some (c, cells))
    ∧ (∀ xs, jsonNormalizeCell (PyVal.list xs) = PyVal.str (jsonDumps (PyVal.list xs)))
    ∧ (∀ kvs, jsonNormalizeCell (PyVal.dict kvs) = PyVal.str (jsonDumps (PyVal.dict kvs)))
    ∧ jsonNormalizeCell PyVal.none = PyVal.none
    ∧ (∀ s, jsonNormalizeCell (PyVal.str s) = PyVal.none)
    ∧ (∀ n, jsonNormalizeCell (PyVal.int n) = PyVal.none)
    ∧ (∀ q, jsonNormalizeCell (PyVal.float q) = PyVal.none)
    ∧ (∀ b, jsonNormalizeCell (PyVal.bool b) = PyVal.none) := by
  obtain ⟨df1, hd, hout⟩ := conform_dataframe_ok_shape du df out h
  refine ⟨?_, ?_, fun _ => rfl, fun _ => rfl, rfl, fun _ => rfl, fun _ => rfl,
    fun _ => rfl, fun _ => rfl⟩
  · intro hc
    obtain ⟨hnd, hns⟩ := structured_cols_families c hc
    have h1 : df1[i]? = some (c, cells) :=
      applyToColumnsE_ok_notin _ _ df df1 hd i c cells hdf hnd
    rw [hout, applyToColumns_getElem, applyToColumns_getElem, h1]
    simp only [Option.map_some']
    rw [if_pos hc]
    simp only [Option.map_some']
    rw [if_neg hns]
  · intro hnd hns hnt
    have h1 : df1[i]? = some (c, cells) :=
      applyToColumnsE_ok_notin _ _ df df1 hd i c cells hdf hnd
    rw [hout, applyToColumns_getElem, applyToColumns_getElem, h1]
    simp only [Option.map_some']
    rw [if_neg hns]
    simp only [Option.map_some']
    rw [if_neg hnt]

/-- Witness for C7 at a concrete dataframe: a `points` column with a scalar
string cell and a `None` cell is normalized to all-`None`, and a `text`
column is untouched. -/
theorem conform_dataframe_structured_witness :
    conform_dataframe (fun _ => none)
        [("points", [PyVal.none, PyVal.str "s"]), ("text", [PyVal.int 1])]
      = Except.ok [("points", [PyVal.none, PyVal.none]), ("text", [PyVal.int 1])]
    ∧ [("points", [PyVal.none, PyVal.none]), ("text", [PyVal.int 1])][0]?
        = some ("points", [PyVal.none, PyVal.str "s"].map jsonNormalizeCell)
    ∧ [("points", [PyVal.none, PyVal.none]), ("text", [PyVal.int 1])][1]?
        = some ("text", [PyVal.int 1]) :=
  ⟨rfl,
   (conform_dataframe_structured (fun _ => none)
       [("points", [PyVal.none, PyVal.str "s"]), ("text", [PyVal.int 1])]
       [("points", [PyVal.none, PyVal.none]), ("text", [PyVal.int 1])]
       rfl 0 "points" [PyVal.none, PyVal.str "s"] rfl).1 (by decide),
   (conform_dataframe_structured (fun _ => none)
       [("points", [PyVal.none, PyVal.str "s"]), ("text", [PyVal.int 1])]
       [("points", [PyVal.none, PyVal.none]), ("text", [PyVal.int 1])]
       rfl 1 "text" [PyVal.int 1] rfl).2.1 (by decide) (by decide) (by decide)⟩

/-! ## Claim C10: stringified-column normalization -/

/-- C10: for every staged dataframe with a column named `version`,
`page_number` or `regex_metadata`, a successful `conform_dataframe` coerces
each cell of that column to its string form unconditionally, and a `None`
cell becomes the literal text `"None"`. -/
theorem conform_dataframe_stringified (du : PyVal → Option ℚ)
    (df out : List (String × List PyVal)) (h : conform_dataframe du df = Except.ok out)
    (i : Nat) (c : String) (cells : List PyVal) (hdf : df[i]? = some (c, cells)) :
    (c ∈ stringifiedColumns →
      out[i]? = some (c, cells.map (fun v => PyVal.str (pyStr v))))
    ∧ pyStr PyVal.none = "None" := by
  obtain ⟨df1, hd, hout⟩ := conform_dataframe_ok_shape du df out h
  refine ⟨?_, by simp [pyStr, pyRepr]⟩
  intro hc
  obtain ⟨hnd, hns⟩ := stringified_cols_families c hc
  have h1 : df1[i]? = some (c, cells) :=
    applyToColumnsE_ok_notin _ _ df df1 hd i c cells hdf hnd
  rw [hout, applyToColumns_getElem, applyToColumns_getElem, h1]
  simp only [Option.map_some']
  rw [if_neg hns]
  simp only [Option.map_some']
  rw [if_pos hc]

/-- Witness for C10 at a concrete dataframe: a `version` column with a
`None` cell is coerced to the string cell `"None"`. -/
theorem conform_dataframe_stringified_witness :
    conform_dataframe (fun _ => none) [("version", [PyVal.none])]
      = Except.ok [("version", [PyVal.str (pyStr PyVal.none)])]
    ∧ [("version", [PyVal.str (pyStr PyVal.none)])][0]?
        = some ("version", [PyVal.none].map (fun v => PyVal.str (pyStr v)))
    ∧ pyStr PyVal.none = "None" :=
  ⟨rfl,
   (conform_dataframe_stringified (fun _ => none) [("version", [PyVal.none])]
       [("version", [PyVal.str (pyStr PyVal.none)])] rfl 0 "version" [PyVal.none] rfl).1
     (by decide),
   (conform_dataframe_stringified (fun _ => none) [("version", [PyVal.none])]
       [("version", [PyVal.str (pyStr PyVal.none)])] rfl 0 "version" [PyVal.none] rfl).2⟩

/-! ## Lemmas about slice chunking and sorting -/

theorem chunkRecAux_nil {α : Type} (B : Nat) : ∀ fuel, chunkRecAux B fuel ([] : List α) = []
  | 0 => rfl
  | _ + 1 => rfl

theorem drop_length_le {α : Type} (B : Nat) (hB : 1 ≤ B) (a : α) (as : List α) (n : Nat)
    (h : (a :: as).length ≤ n + 1) : ((a :: as).drop B).length ≤ n := by
  rw [List.length_drop, List.length_cons]
  rw [List.length_cons] at h
  omega

theorem chunkRecAux_fuel_irrel {α : Type} (B : Nat) (hB : 1 ≤ B) :
    ∀ (f1 f2 : Nat) (l : List α), l.length ≤ f1 → l.length ≤ f2 →
      chunkRecAux B f1 l = chunkRecAux B f2 l := by
  intro f1
  induction f1 with
  | zero =>
    intro f2 l h1 _
    have : l = [] := List.length_eq_zero.mp (Nat.le_zero.mp h1)
    subst this
    rw [chunkRecAux_nil, chunkRecAux_nil]
  | succ n ih =>
    intro f2 l h1 h2
    rcases l with _ | ⟨a, as⟩
    · rw [chunkRecAux_nil, chunkRecAux_nil]
    · rcases f2 with _ | m
      · simp at h2
      · show ((a :: as).take B) :: chunkRecAux B n ((a :: as).drop B)
            = ((a :: as).take B) :: chunkRecAux B m ((a :: as).drop B)
        congr 1
        exact ih _ _ (drop_length_le B hB a as n h1) (drop_length_le B hB a as m h2)

theorem ceil_div_succ (B n : Nat) (hB : 1 ≤ B) (hn : 1 ≤ n) :
    (n + B - 1) / B = (n - B + B - 1) / B + 1 := by
  rcases Nat.le_total n B with h | h
  · have h1 : n - B = 0 := by omega
    rw [h1]
    have h2 : (0 + B - 1) / B = 0 := Nat.div_eq_of_lt (by omega)
    rw [h2]
    exact Nat.div_eq_of_lt_le (by omega) (by omega)
  · have h1 : n + B - 1 = (n - B + B - 1) + B := by omega
    rw [h1, Nat.add_div_right _ (by omega)]

theorem sliceChunks_nil {α : Type} (B : Nat) (hB : 1 ≤ B) :
    sliceChunks B ([] : List α) = [] := by
  unfold sliceChunks
  have : (([] : List α).length + B - 1) / B = 0 := Nat.div_eq_of_lt (by simp; omega)
  rw [this]
  rfl

theorem sliceChunks_cons {α : Type} (B : Nat) (hB : 1 ≤ B) (l : List α) (hl : l ≠ []) :
    sliceChunks B l = l.take B :: sliceChunks B (l.drop B) := by
  unfold sliceChunks
  have hn : 1 ≤ l.length := by
    rcases l with _ | _
    · exact absurd rfl hl
    · simp
  have hlen : (l.drop B).length = l.length - B := by simp
  rw [hlen, ceil_div_succ B l.length hB hn, List.range_succ_eq_map]
  simp only [List.map_cons, List.map_map]
  congr 1
  · simp
  · apply List.map_congr_left
    intro i _
    simp only [Function.comp_apply]
    congr 1
    rw [List.drop_drop]
    congr 1
    rw [Nat.succ_mul, Nat.add_comm]

theorem sliceChunks_eq_chunkRecAux {α : Type} (B : Nat) (hB : 1 ≤ B) :
    ∀ (n : Nat) (l : List α), l.length ≤ n → sliceChunks B l = chunkRecAux B l.length l := by
  intro n
  induction n with
  | zero =>
    intro l hl
    have : l = [] := List.length_eq_zero.mp (Nat.le_zero.mp hl)
    subst this
    rw [sliceChunks_nil B hB, chunkRecAux_nil]
  | succ n ih =>
    intro l hl
    rcases l with _ | ⟨a, as⟩
    · rw [sliceChunks_nil B hB, chunkRecAux_nil]
    · rw [sliceChunks_cons B hB _ (by simp)]
      show _ = chunkRecAux B (as.length + 1) (a :: as)
      show _ = ((a :: as).take B) :: chunkRecAux B as.length ((a :: as).drop B)
      congr 1
      rw [ih ((a :: as).drop B) (drop_length_le B hB a as n hl)]
      apply chunkRecAux_fuel_irrel B hB
      · exact Nat.le_refl _
      · exact drop_length_le B hB a as as.length (by rw [List.length_cons])

theorem chunkRecAux_flatten {α : Type} (B : Nat) (hB : 1 ≤ B) :
    ∀ (n : Nat) (l : List α), l.length ≤ n → (chunkRecAux B n l).flatten = l := by
  intro n
  induction n with
  | zero =>
    intro l hl
    have : l = [] := List.length_eq_zero.mp (Nat.le_zero.mp hl)
    subst this
    rfl
  | succ n ih =>
    intro l hl
    rcases l with _ | ⟨a, as⟩
    · rfl
    · show ((a :: as).take B ++ (chunkRecAux B n ((a :: as).drop B)).flatten) = a :: as
      rw [ih _ (drop_length_le B hB a as n hl), List.take_append_drop]

theorem chunkRecAux_subset {α : Type} (B : Nat) (hB : 1 ≤ B) (n : Nat) (l : List α)
    (hn : l.length ≤ n) (c : List α) (hc : c ∈ chunkRecAux B n l) : ∀ x ∈ c, x ∈ l := by
  intro x hx
  have : x ∈ (chunkRecAux B n l).flatten := List.mem_flatten.mpr ⟨c, hc, hx⟩
  rwa [chunkRecAux_flatten B hB n l hn] at this

theorem take_disjoint_drop {α : Type} (B : Nat) (l : List α) (hnd : l.Nodup) :
    ∀ x ∈ l.take B, x ∉ l.drop B := by
  intro x hx hd
  rw [← List.take_append_drop B l, List.nodup_append] at hnd
  exact hnd.2.2 hx hd

theorem chunkRecAux_pairwise_disjoint {α : Type} (B : Nat) (hB : 1 ≤ B) :
    ∀ (n : Nat) (l : List α), l.length ≤ n → l.Nodup →
      List.Pairwise (fun c1 c2 => ∀ x ∈ c1, x ∉ c2) (chunkRecAux B n l) := by
  intro n
  induction n with
  | zero =>
    intro l hl _
    have : l = [] := List.length_eq_zero.mp (Nat.le_zero.mp hl)
    subst this
    exact List.Pairwise.nil
  | succ n ih =>
    intro l hl hnd
    rcases l with _ | ⟨a, as⟩
    · exact List.Pairwise.nil
    · show List.Pairwise _ (((a :: as).take B) :: chunkRecAux B n ((a :: as).drop B))
      constructor
      · intro c hc x hx hxc
        have hxd : x ∈ (a :: as).drop B :=
          chunkRecAux_subset B hB n _ (drop_length_le B hB a as n hl) c hc x hxc
        exact take_disjoint_drop B (a :: as) hnd x hx hxd
      · exact ih _ (drop_length_le B hB a as n hl) ((List.drop_sublist B (a :: as)).nodup hnd)

theorem listToFinset_flatten :
    ∀ cs : List (List String),
      (cs.map List.toFinset).foldr (· ∪ ·) ∅ = cs.flatten.toFinset := by
  intro cs
  induction cs with
  | nil => rfl
  | cons c cs ih =>
    show c.toFinset ∪ (cs.map List.toFinset).foldr (· ∪ ·) ∅ = (c ++ cs.flatten).toFinset
    rw [ih, List.toFinset_append]

theorem perm_toFinset_eq {l1 l2 : List String} (h : l1.Perm l2) : l1.toFinset = l2.toFinset := by
  ext x
  simp [List.mem_toFinset, h.mem_iff]

theorem sortIds_perm (results : List String) : (sortIds results).Perm results :=
  List.perm_insertionSort strLe results

theorem sortIds_eq_of_perm {r1 r2 : List String} (h : r1.Perm r2) : sortIds r1 = sortIds r2 :=
  List.eq_of_perm_of_sorted
    ((sortIds_perm r1).trans (h.trans (sortIds_perm r2).symm))
    (List.sorted_insertionSort strLe r1)
    (List.sorted_insertionSort strLe r2)

/-! ## Claim C2: the partitioner -/

/-- C2: for a table whose identifier column holds `N` distinct values and a
batch size `B ≥ 1`, `SQLIndexer.run` yields exactly `ceil(N / B)`
descriptors; their identifier sets are pairwise disjoint and their union is
the set of all `N` identifiers; and descriptor `i` carries exactly the
`i`-th contiguous slice of the lexicographically sorted identifier list. -/
theorem indexer_run_partition (table_name id_column : String) (B : Nat)
    (results : List String) (hB : 1 ≤ B) (hnd : results.Nodup) :
    (SQLIndexer_run table_name id_column B results).length = (results.length + B - 1) / B
    ∧ (results.length + B - 1) / B = results.length ⌈/⌉ B
    ∧ List.Pairwise (fun d1 d2 => Disjoint d1.identifiers d2.identifiers)
        (SQLIndexer_run table_name id_column B results)
    ∧ ((SQLIndexer_run table_name id_column B results).map
        SqlBatchFileData.identifiers).foldr (· ∪ ·) ∅ = results.toFinset
    ∧ (∀ i : Nat, ((SQLIndexer_run table_name id_column B results)[i]?).map
        SqlBatchFileData.identifiers
        = ((sliceChunks B (sortIds results))[i]?).map List.toFinset) := by
  have hSperm := sortIds_perm results
  have hSnd : (sortIds results).Nodup := hSperm.nodup_iff.mpr hnd
  have hSlen : (sortIds results).length = results.length := hSperm.length_eq
  have hchunks : sliceChunks B (sortIds results)
      = chunkRecAux B (sortIds results).length (sortIds results) :=
    sliceChunks_eq_chunkRecAux B hB (sortIds results).length (sortIds results) (Nat.le_refl _)
  have hmap : (SQLIndexer_run table_name id_column B results).map
      SqlBatchFileData.identifiers = (sliceChunks B (sortIds results)).map List.toFinset := by
    unfold SQLIndexer_run id_batches
    rw [List.map_map]
    rfl
  refine ⟨?_, (Nat.ceilDiv_eq_add_pred_div _ _).symm, ?_, ?_, ?_⟩
  · show ((sliceChunks B (sortIds results)).map _).length = _
    rw [List.length_map]
    unfold sliceChunks
    rw [List.length_map, List.length_range, hSlen]
  · show List.Pairwise _ ((sliceChunks B (sortIds results)).map _)
    rw [List.pairwise_map, hchunks]
    have hp := chunkRecAux_pairwise_disjoint B hB (sortIds results).length (sortIds results)
      (Nat.le_refl _) hSnd
    apply hp.imp
    intro c1 c2 hdisj
    apply Finset.disjoint_left.mpr
    intro x hx
    have hx1 : x ∈ c1 := List.mem_toFinset.mp hx
    intro hx2
    exact hdisj x hx1 (List.mem_toFinset.mp hx2)
  · rw [hmap, listToFinset_flatten, hchunks,
      chunkRecAux_flatten B hB (sortIds results).length (sortIds results) (Nat.le_refl _)]
    exact perm_toFinset_eq hSperm
  · intro i
    unfold SQLIndexer_run id_batches
    simp only [List.getElem?_map, Option.map_map]
    rfl

/-- Witness for C2 at the concrete scenario of the claim: identifiers
`["b", "a", "c"]` with batch size 2 yield two descriptors, carrying the
identifier sets of the slices `["a", "b"]` and `["c"]`, in that order. -/
theorem indexer_run_partition_witness :
    (SQLIndexer_run "t" "id" 2 ["b", "a", "c"]).length = 2
    ∧ ((SQLIndexer_run "t" "id" 2 ["b", "a", "c"]).map SqlBatchFileData.identifiers)
        = [(["a", "b"] : List String).toFinset, (["c"] : List String).toFinset] := by
  constructor
  · exact (indexer_run_partition "t" "id" 2 ["b", "a", "c"] (by decide) (by decide)).1
  · have h := (indexer_run_partition "t" "id" 2 ["b", "a", "c"] (by decide) (by decide)).2.2.2.2
    decide

/-! ## Claim C6: determinism of the partitioner -/

/-- C6: running the indexer twice against the same unchanged sequence of
identifier-query results — indeed against any reordering of it — produces
identical descriptor lists: the same number of descriptors, in the same
order, with the same identifier sets and batch items. -/
theorem indexer_run_deterministic (table_name id_column : String) (B : Nat)
    (r1 r2 : List String) (h : r1.Perm r2) :
    SQLIndexer_run table_name id_column B r1 = SQLIndexer_run table_name id_column B r2 := by
  unfold SQLIndexer_run
  rw [sortIds_eq_of_perm h]

/-- Witness for C6 at concrete inputs: two enumerations of the same
identifiers, fetched in different row orders, produce identical descriptor
lists. -/
theorem indexer_run_deterministic_witness :
    SQLIndexer_run "t" "id" 2 ["b", "a", "c"] = SQLIndexer_run "t" "id" 2 ["c", "a", "b"] :=
  indexer_run_deterministic "t" "id" 2 ["b", "a", "c"] ["c", "a", "b"] (by decide)

/-! ## Lemmas about the uploader -/

theorem lookup_zip_rowValues (k : String) :
    ∀ (cols : List String) (r : Row), k ∈ cols →
      List.lookup k (cols.zip (rowValues cols r))
        = some ((List.lookup k r).getD PyVal.none) := by
  intro cols
  induction cols with
  | nil =>
    intro r hk
    simp at hk
  | cons c cs ih =>
    intro r hk
    show List.lookup k ((c, (List.lookup c r).getD PyVal.none) :: cs.zip (rowValues cs r)) = _
    by_cases hc : k = c
    · subst hc
      simp [List.lookup]
    · have hbc : (k == c) = false := beq_eq_false_iff_ne.mpr hc
      rw [List.lookup, hbc]
      rcases List.mem_cons.mp hk with h | h
      · exact absurd h hc
      · exact ih r h

theorem prepare_row_lookup (du : PyVal → Option ℚ) (k : String) (hk : k ∉ _DATE_COLUMNS) :
    ∀ (cols : List String) (vals out : List PyVal),
      prepare_row du cols vals = Except.ok out →
      List.lookup k (cols.zip out) = List.lookup k (cols.zip vals) := by
  intro cols
  induction cols with
  | nil =>
    intro vals out _
    rfl
  | cons c cs ih =>
    intro vals out h
    rcases vals with _ | ⟨v, vs⟩
    · have hout : out = [] := by
        unfold prepare_row at h
        simp only [List.zip_nil_right, List.mapM_nil, pure, Except.pure,
          Except.ok.injEq] at h
        exact h.symm
      subst hout
      rfl
    · unfold prepare_row at h
      rw [show (c :: cs).zip (v :: vs) = (c, v) :: cs.zip vs from rfl, List.mapM_cons] at h
      rcases hx : prepare_cell du (c, v) with e | w
      · rw [hx] at h
        simp [Bind.bind, Except.bind] at h
      · rw [hx] at h
        rcases hxs : (cs.zip vs).mapM (prepare_cell du) with e | ws
        · rw [hxs] at h
          simp [Bind.bind, Except.bind] at h
        · rw [hxs] at h
          simp only [Bind.bind, Except.bind, pure, Except.pure, Except.ok.injEq] at h
          subst h
          show List.lookup k ((c, w) :: cs.zip ws) = List.lookup k ((c, v) :: cs.zip vs)
          by_cases hc : k = c
          · subst hc
            have hw : w = v := by
              unfold prepare_cell at hx
              rw [if_neg (by simpa using hk)] at hx
              simp only [pure, Except.pure, Except.ok.injEq] at hx
              exact hx.symm
            simp [List.lookup, hw]
          · have hbc : (k == c) = false := beq_eq_false_iff_ne.mpr hc
            rw [List.lookup, List.lookup, hbc]
            exact ih vs ws hxs

theorem inserted_row_matches (du : PyVal → Option ℚ) (key : String)
    (hkd : key ∉ _DATE_COLUMNS) (cols : List String) (hkc : key ∈ cols) (r : Row)
    (fid : String) (hr : List.lookup key r = some (PyVal.str fid))
    (out : List PyVal) (hok : prepare_row du cols (rowValues cols r) = Except.ok out) :
    rowMatches key (PyVal.str fid) (cols.zip out) = true := by
  unfold rowMatches
  rw [prepare_row_lookup du key hkd cols (rowValues cols r) out hok,
    lookup_zip_rowValues key cols r hkc, hr]
  simp [scalarEqB]

theorem insertStmts_shape (du : PyVal → Option ℚ) (tn : String) (cols : List String) :
    ∀ (batches : List (List Row)) (stmts : List SqlStmt),
      insertStmtsForBatches du tn cols batches = Except.ok stmts →
      ∀ s ∈ stmts, ∃ rows out, rows ∈ batches
        ∧ prepare_data du cols (rows.map (rowValues cols)) = Except.ok out
        ∧ s = SqlStmt.insertMany tn cols out := by
  intro batches stmts h s hs
  obtain ⟨rows, hrows, hf⟩ := exceptMapM_ok_mem _ batches stmts h s hs
  rcases hp : prepare_data du cols (rows.map (rowValues cols)) with e | out
  · rw [hp] at hf
    simp [Bind.bind, Except.bind] at hf
  · rw [hp] at hf
    simp only [Bind.bind, Except.bind, pure, Except.pure, Except.ok.injEq] at hf
    exact ⟨rows, out, hrows, hp, hf.symm⟩

theorem applyStmts_all_inserts :
    ∀ (ss : List SqlStmt) (t : SqlTable), (∀ s ∈ ss, isInsertStmt s = true) →
      (applyStmts t ss).rows = t.rows ++ insertedRows ss := by
  intro ss
  induction ss with
  | nil =>
    intro t _
    show t.rows = t.rows ++ ([] : List Row)
    rw [List.append_nil]
  | cons s ss ih =>
    intro t hall
    rcases s with ⟨tn, k, p⟩ | ⟨tn, cols, vals⟩
    · have := hall _ (List.mem_cons_self _ _)
      simp [isInsertStmt] at this
    · show (applyStmts (executeStmt t (.insertMany tn cols vals)) ss).rows = _
      rw [ih _ (fun s hs => hall s (List.mem_cons_of_mem _ hs))]
      show (t.rows ++ vals.map (fun tup => cols.zip tup)) ++ insertedRows ss = _
      rw [List.append_assoc]
      rfl

theorem insertedRows_mem :
    ∀ (ss : List SqlStmt) (r : Row), r ∈ insertedRows ss →
      ∃ s ∈ ss, r ∈ stmtRows s := by
  intro ss r hr
  unfold insertedRows at hr
  obtain ⟨c, hc, hrc⟩ := List.mem_flatten.mp hr
  obtain ⟨s, hs, hsc⟩ := List.mem_map.mp hc
  exact ⟨s, hs, by rw [hsc]; exact hrc⟩

/-! ## Claim C1: delete-then-insert reconciliation -/

/-- C1: when the live table contains the configured record-linkage column,
a successful `upload_dataframe` for a file with record identifier
`file_identifier` executes exactly one DELETE — scoped to the rows whose
record-linkage value equals that identifier — before any insert; afterwards
the table rows are the previous rows without the rows for that identifier
followed by the newly inserted rows, every newly inserted row carries the
identifier, and the rows for the identifier are exactly the newly inserted
rows (zero surviving duplicates).  The hypotheses ask that the batch size is
positive, that the record-linkage column is not one of the date columns
(else `prepare_data` would rewrite it), and that every row of the staged
dataframe carries the record identifier, as rows staged by
`conform_dict` do. -/
theorem upload_dataframe_reconciles (du : PyVal → Option ℚ) (batch_size : Nat)
    (table_name record_id_key : String) (t : SqlTable) (df : List Row)
    (file_identifier : String) (trace : List SqlStmt) (t2 : SqlTable)
    (hB : 1 ≤ batch_size)
    (hkey : record_id_key ∈ t.cols)
    (hkd : record_id_key ∉ _DATE_COLUMNS)
    (hkc : record_id_key ∈ dfColumns df)
    (hdf : ∀ r ∈ df, List.lookup record_id_key r = some (PyVal.str file_identifier))
    (hok : upload_dataframe du batch_size table_name record_id_key t df file_identifier
      = Except.ok (trace, t2)) :
    trace.filter isDeleteStmt
        = [SqlStmt.deleteWhere table_name record_id_key (PyVal.str file_identifier)]
    ∧ trace.head? = some (SqlStmt.deleteWhere table_name record_id_key
        (PyVal.str file_identifier))
    ∧ (∀ s ∈ trace.tail, isInsertStmt s = true)
    ∧ t2.rows = t.rows.filter
        (fun r => !(rowMatches record_id_key (PyVal.str file_identifier) r))
        ++ insertedRows trace
    ∧ (∀ r ∈ insertedRows trace,
        rowMatches record_id_key (PyVal.str file_identifier) r = true)
    ∧ t2.rows.filter (rowMatches record_id_key (PyVal.str file_identifier))
        = insertedRows trace := by
  have hcd : can_delete t record_id_key = true := by
    unfold can_delete get_table_columns
    exact List.elem_iff.mpr hkey
  unfold upload_dataframe at hok
  rw [if_pos hcd] at hok
  dsimp only at hok
  rcases hins : insertStmtsForBatches du table_name (dfColumns df)
      (split_dataframe batch_size df) with e | inserts
  · rw [hins] at hok
    simp [Bind.bind, Except.bind] at hok
  · rw [hins] at hok
    simp only [Bind.bind, Except.bind, pure, Except.pure, Except.ok.injEq,
      Prod.mk.injEq, delete_by_record_id, List.singleton_append] at hok
    obtain ⟨htr, ht2⟩ := hok
    subst htr
    subst ht2
    have hshape := insertStmts_shape du table_name (dfColumns df) _ inserts hins
    have hIns : ∀ s ∈ inserts, isInsertStmt s = true := by
      intro s hs
      obtain ⟨rows, out, _, _, hs_eq⟩ := hshape s hs
      rw [hs_eq]
      rfl
    have hNoDel : ∀ s ∈ inserts, ¬(isDeleteStmt s = true) := by
      intro s hs
      obtain ⟨rows, out, _, _, hs_eq⟩ := hshape s hs
      rw [hs_eq]
      simp [isDeleteStmt]
    have hsub : ∀ rows ∈ split_dataframe batch_size df, ∀ r ∈ rows, r ∈ df := by
      intro rows hrows r hr
      unfold split_dataframe at hrows
      rw [sliceChunks_eq_chunkRecAux batch_size hB df.length df (Nat.le_refl _)] at hrows
      exact chunkRecAux_subset batch_size hB df.length df (Nat.le_refl _) rows hrows r hr
    have hmatch : ∀ r ∈ insertedRows inserts,
        rowMatches record_id_key (PyVal.str file_identifier) r = true := by
      intro r hr
      obtain ⟨s, hs, hrs⟩ := insertedRows_mem inserts r hr
      obtain ⟨rows, out, hrows, hprep, hs_eq⟩ := hshape s hs
      rw [hs_eq] at hrs
      obtain ⟨o, ho, hoz⟩ := List.mem_map.mp hrs
      obtain ⟨rv, hrv, hrvok⟩ := exceptMapM_ok_mem _ _ _ hprep o ho
      obtain ⟨r0, hr0, hr0v⟩ := List.mem_map.mp hrv
      subst hoz
      have hr0df : r0 ∈ df := hsub rows hrows r0 hr0
      rw [← hr0v] at hrvok
      exact inserted_row_matches du record_id_key hkd (dfColumns df) hkc r0
        file_identifier (hdf r0 hr0df) o hrvok
    have hinsEq : insertedRows (SqlStmt.deleteWhere table_name record_id_key
        (PyVal.str file_identifier) :: inserts) = insertedRows inserts := rfl
    have hrows2 : (applyStmts t (SqlStmt.deleteWhere table_name record_id_key
          (PyVal.str file_identifier) :: inserts)).rows
        = t.rows.filter
            (fun r => !(rowMatches record_id_key (PyVal.str file_identifier) r))
          ++ insertedRows inserts := by
      show (applyStmts (executeStmt t (SqlStmt.deleteWhere table_name record_id_key
          (PyVal.str file_identifier))) inserts).rows = _
      rw [applyStmts_all_inserts inserts _ hIns]
      rfl
    refine ⟨?_, rfl, ?_, ?_, ?_, ?_⟩
    · show (SqlStmt.deleteWhere table_name record_id_key (PyVal.str file_identifier)
          :: inserts).filter isDeleteStmt = _
      rw [List.filter_cons_of_pos (by rfl)]
      rw [List.filter_eq_nil_iff.mpr hNoDel]
    · intro s hs
      exact hIns s hs
    · rw [hrows2, hinsEq]
    · rw [hinsEq]
      exact hmatch
    · rw [hrows2, hinsEq, List.filter_append]
      have h1 : (t.rows.filter
          (fun r => !(rowMatches record_id_key (PyVal.str file_identifier) r))).filter
            (rowMatches record_id_key (PyVal.str file_identifier)) = [] := by
        rw [List.filter_filter, List.filter_eq_nil_iff]
        intro a _
        cases h : rowMatches record_id_key (PyVal.str file_identifier) a <;> simp [h]
      have h2 : (insertedRows inserts).filter
          (rowMatches record_id_key (PyVal.str file_identifier))
          = insertedRows inserts :=
        List.filter_eq_self.mpr hmatch
      rw [h1, h2, List.nil_append]

/-- Witness for C1 at the concrete scenario of the spec: a table holding one
old row for record `r1` receives a new batch for `r1`; the trace is exactly
one scoped DELETE followed by one batched INSERT, and afterwards the rows for
`r1` are exactly the newly inserted ones. -/
theorem upload_dataframe_reconciles_witness :
    upload_dataframe (fun _ => none) 50 "T" "record_id"
        ⟨["id", "record_id", "text"],
         [[("id", PyVal.int 1), ("record_id", PyVal.str "r1"), ("text", PyVal.str "hello")]]⟩
        [[("record_id", PyVal.str "r1"), ("text", PyVal.str "updated")]] "r1"
      = Except.ok
          ([SqlStmt.deleteWhere "T" "record_id" (PyVal.str "r1"),
            SqlStmt.insertMany "T" ["record_id", "text"]
              [[PyVal.str "r1", PyVal.str "updated"]]],
           ⟨["id", "record_id", "text"],
            [[("record_id", PyVal.str "r1"), ("text", PyVal.str "updated")]]⟩)
    ∧ [[("record_id", PyVal.str "r1"), ("text", PyVal.str "updated")]].filter
        (rowMatches "record_id" (PyVal.str "r1"))
      = insertedRows
          [SqlStmt.deleteWhere "T" "record_id" (PyVal.str "r1"),
           SqlStmt.insertMany "T" ["record_id", "text"]
             [[PyVal.str "r1", PyVal.str "updated"]]] := by
  constructor
  · rfl
  · exact (upload_dataframe_reconciles (fun _ => none) 50 "T" "record_id"
      ⟨["id", "record_id", "text"],
       [[("id", PyVal.int 1), ("record_id", PyVal.str "r1"), ("text", PyVal.str "hello")]]⟩
      [[("record_id", PyVal.str "r1"), ("text", PyVal.str "updated")]] "r1" _ _
      (by decide) (by decide) (by decide) (by decide)
      (by
        intro r hr
        rw [List.mem_singleton.mp hr]
        rfl)
      rfl).2.2.2.2.2
